import Mathlib

/-!
Shallow embedding of the attention-categorization core of gerrit-monitor
(src/gerrit.js): the Message model, the Changelist model with its
categorization engine, the Description parser, and the search-result
aggregator. JSON numbers are modelled as Int, timestamps as Int
milliseconds since the epoch (Message.getTime and new Date().getTime()
are abstracted to these numeric values; the "YYYY-MM-DD HH:MM:SS" string
parsing itself is not modelled). JS truthiness of optional JSON fields is
modelled explicitly: an absent or empty tag is falsy, an absent or zero
_account_id is falsy, null is Option.none.
-/

namespace Gerrit

/-- Attention categories, mirroring the string constants attached to the
Changelist class in gerrit.js (including the misspelled source literal
for the outgoing category, which is irrelevant to the tag names here). -/
inductive Category where
  | NONE
  | STALE
  | NO_REVIEWERS
  | WIP
  | INCOMING_NEEDS_ATTENTION
  | OUTGOING_NEEDS_ATTENTION
  | READY_TO_SUBMIT
  deriving DecidableEq, Repr

/-- A user account; identity is compared by _account_id only. -/
structure Account where
  accountId : Int
  deriving DecidableEq, Repr

/-- Model of the JS String.startsWith test, on the character list of the
string (Lean's own String.startsWith is byte-position based and is
avoided so that concrete values evaluate by kernel reduction). -/
def jsStartsWith (s pre : String) : Bool :=
  pre.data.isPrefixOf s.data

/-- Helper of jsSplitChar: accumulate the current piece (in reverse) while
scanning, cutting at every separator occurrence. -/
def splitCharAux (sep : Char) : List Char → List Char → List String
  | [], acc => [String.mk acc.reverse]
  | c :: rest, acc =>
    if c = sep then String.mk acc.reverse :: splitCharAux sep rest []
    else splitCharAux sep rest (c :: acc)

/-- Model of the JS String.split with a one-character separator: cut at
every occurrence, keeping empty pieces (so "a//b" gives ["a", "", "b"] and
"" gives [""]). -/
def jsSplitChar (s : String) (sep : Char) : List String :=
  splitCharAux sep s.data []

/-- One message of a CL. tag models the optional tag_ field (none when the
field is absent; JS truthiness also treats an empty string as absent, which
Message.shouldBeIgnored reproduces). realAuthor models real_author, date
models the parsed UTC time of the message in milliseconds. -/
structure Message where
  tag : Option String
  realAuthor : Account
  date : Int
  deriving DecidableEq, Repr

/-- Translation of Message.shouldBeIgnored: ignored iff a truthy tag starts
with "autogenerated:" and is neither of the two new-patchset literals. -/
def Message.shouldBeIgnored (m : Message) : Bool :=
  match m.tag with
  | none => false
  | some tag =>
    if tag = "" then false
    else if ! jsStartsWith tag "autogenerated:" then false
    else if tag = "autogenerated:gerrit:newPatchSet" then false
    else if tag = "autogenerated:gerrit:newWipPatchSet" then false
    else true

/-- Translation of Message.isAuthoredBy: compares real_author._account_id
with the given account id. -/
def Message.isAuthoredBy (m : Message) (user : Account) : Bool :=
  m.realAuthor.accountId == user.accountId

/-- One entry of labels["Code-Review"].all: {_account_id, value}. An absent
or zero _account_id is falsy in filterReviewers, so it is modelled as 0;
an absent value is modelled as 0 (undefined > 0 is false in JS, as is
0 > 0). -/
structure Reviewer where
  accountId : Int
  value : Int
  deriving DecidableEq, Repr

/-- The JSON object stored under one label name; only the optional field
all is ever read by the code. -/
structure LabelInfo where
  all : Option (List Reviewer)
  deriving DecidableEq, Repr

/-- The JSON state of one changelist, restricted to the fields gerrit.js
reads. currentRevisionNumber models
revisions[current_revision]._number, the value returned by
getCurrentRevision().getNumber(); stars is none when the json has no
stars field. -/
structure Changelist where
  owner : Account
  submittable : Bool
  unresolvedCommentCount : Int
  workInProgress : Bool
  insertions : Int
  deletions : Int
  labels : List (String × LabelInfo)
  messages : List Message
  stars : Option (List String)
  currentRevisionNumber : Int
  deriving DecidableEq, Repr

/-- Translation of Changelist.isOwner. -/
def Changelist.isOwner (cl : Changelist) (user : Account) : Bool :=
  cl.owner.accountId == user.accountId

/-- Translation of Changelist.isSubmittable. -/
def Changelist.isSubmittable (cl : Changelist) : Bool :=
  cl.submittable

/-- Translation of Changelist.hasUnresolvedComments:
unresolved_comment_count !== 0. -/
def Changelist.hasUnresolvedComments (cl : Changelist) : Bool :=
  cl.unresolvedCommentCount != 0

/-- Translation of Changelist.isWorkInProgress: work_in_progress === true. -/
def Changelist.isWorkInProgress (cl : Changelist) : Bool :=
  cl.workInProgress

/-- Translation of Changelist.getDeltaSize. -/
def Changelist.getDeltaSize (cl : Changelist) : Int :=
  cl.insertions + cl.deletions

/-- Translation of Changelist.getMessages (the lazy wrapping of
json.messages is the identity here). -/
def Changelist.getMessages (cl : Changelist) : List Message :=
  cl.messages

/-- Translation of Changelist.filterReviewers: reads
labels["Code-Review"].all (empty when the label or its all field is
absent) and keeps entries with a truthy _account_id passing the filter. -/
def Changelist.filterReviewers (cl : Changelist) (filter : Reviewer → Bool) :
    List Reviewer :=
  let codeReviewLabel := cl.labels.lookup "Code-Review"
  ((codeReviewLabel.bind LabelInfo.all).getD []).filter
    (fun reviewer => reviewer.accountId != 0 && filter reviewer)

/-- Translation of Changelist.hasReviewed: some Code-Review entry for the
user has a positive vote. -/
def Changelist.hasReviewed (cl : Changelist) (user : Account) : Bool :=
  (cl.filterReviewers (fun reviewer =>
    decide (reviewer.value > 0) && reviewer.accountId == user.accountId)).length != 0

/-- Translation of Changelist.getReviewers: Code-Review entries other than
the owner (memoization is the identity in a pure model). -/
def Changelist.getReviewers (cl : Changelist) : List Reviewer :=
  cl.filterReviewers (fun reviewer => reviewer.accountId != cl.owner.accountId)

/-- Translation of Changelist.getStars: the stars field, or [] when the
json has none. -/
def Changelist.getStars (cl : Changelist) : List String :=
  cl.stars.getD []

/-- Translation of Changelist.isStale. now models new Date().getTime().
The last element of a JS array indexed as arr[arr.length - 1] is
List.getLast?, with the undefined (falsy) case being none. -/
def Changelist.isStale (cl : Changelist) (now : Int) : Bool :=
  let allMessages := cl.getMessages
  let filteredMessages := allMessages.filter
    (fun message => ! message.shouldBeIgnored)
  match filteredMessages.getLast? with
  | some lastMessage => decide (now - lastMessage.date > 1000 * 3600 * 24)
  | none =>
    match allMessages.getLast? with
    | some lastMessage => decide (now - lastMessage.date > 1000 * 3600 * 24)
    | none => true

/-- Translation of Changelist.authorCommentedAfterUser. -/
def Changelist.authorCommentedAfterUser (cl : Changelist) (user : Account) :
    Bool :=
  let owner := cl.owner
  let filteredMessages := cl.getMessages.filter (fun message =>
    if message.shouldBeIgnored then false
    else message.isAuthoredBy user || message.isAuthoredBy owner)
  match filteredMessages.getLast? with
  | none => true
  | some lastMessage => lastMessage.isAuthoredBy owner

/-- Characters treated as whitespace by the JS regexp class \s and by
parseInt (ASCII subset; exotic Unicode space characters are not modelled). -/
def jsIsSpace (c : Char) : Bool :=
  c = ' ' || c = '\t' || c = '\n' || c = '\r' ||
  c = Char.ofNat 11 || c = Char.ofNat 12

/-- Value of a decimal digit character. -/
def digitVal (c : Char) : Nat :=
  c.toNat - Char.toNat '0'

/-- Value of a string of decimal digits. -/
def digitsVal (ds : List Char) : Nat :=
  ds.foldl (fun acc c => acc * 10 + digitVal c) 0

/-- Hexadecimal digit test for the JS parseInt 0x form. -/
def isHexDigitChar (c : Char) : Bool :=
  c.isDigit || (decide (c ≥ 'a') && decide (c ≤ 'f')) ||
    (decide (c ≥ 'A') && decide (c ≤ 'F'))

/-- Value of a hexadecimal digit character. -/
def hexDigitVal (c : Char) : Nat :=
  if c.isDigit then digitVal c
  else if decide (c ≥ 'a') && decide (c ≤ 'f') then c.toNat - Char.toNat 'a' + 10
  else c.toNat - Char.toNat 'A' + 10

/-- Value of a string of hexadecimal digits. -/
def hexDigitsVal (ds : List Char) : Nat :=
  ds.foldl (fun acc c => acc * 16 + hexDigitVal c) 0

/-- Model of the JS parseInt builtin as used on star-label suffixes:
leading whitespace is skipped, an optional sign is read, then either a 0x
hexadecimal literal or the longest decimal-digit run is converted; none
models the NaN result when no digit is found. -/
def jsParseInt (s : String) : Option Int :=
  let cs := s.data.dropWhile jsIsSpace
  let sign : Int := if cs.head? = some '-' then -1 else 1
  let cs2 :=
    if cs.head? = some '-' ∨ cs.head? = some '+' then cs.tail else cs
  if cs2.head? = some '0' ∧
      (cs2.tail.head? = some 'x' ∨ cs2.tail.head? = some 'X') then
    let ds := cs2.tail.tail.takeWhile isHexDigitChar
    if ds = [] then none else some (sign * (hexDigitsVal ds : Int))
  else
    let ds := cs2.takeWhile Char.isDigit
    if ds = [] then none else some (sign * (digitsVal ds : Int))

/-- Comparison a <= b on JS numbers where none models NaN: any comparison
with NaN is false. -/
def jsLe : Option Int → Option Int → Bool
  | some a, some b => decide (a ≤ b)
  | _, _ => false

/-- Comparison a == b on JS numbers where none models NaN: NaN is equal to
nothing, not even itself. -/
def jsEqNum : Option Int → Option Int → Bool
  | some a, some b => a == b
  | _, _ => false

/-- The star-label scan of Changelist.getCategory: the fold over getStars
computing latest_tagged_rev_number (starting at -1, possibly becoming
NaN = none) and latest_tag_is_reviewed (starting at null = none). -/
def starLoop : List String → Option Int → Option Bool → Option Int × Option Bool
  | [], latest, isRev => (latest, isRev)
  | starLabel :: rest, latest, isRev =>
    match jsSplitChar starLabel '/' with
    | [p0, p1] =>
      if p0 != "reviewed" && p0 != "unreviewed" then starLoop rest latest isRev
      else
        let tagged := jsParseInt p1
        if jsLe tagged latest then starLoop rest latest isRev
        else starLoop rest tagged (some (p0 == "reviewed"))
    | _ => starLoop rest latest isRev

/-- Translation of Changelist.getCategory. now models the clock reading
new Date().getTime() made inside isStale. The JS truthiness test
if (latest_tag_is_reviewed) is true only for the value true (null and
false are falsy). -/
def Changelist.getCategory (cl : Changelist) (user : Account) (now : Int) :
    Category :=
  if cl.isOwner user then
    if cl.isSubmittable && ! cl.hasUnresolvedComments then
      Category.READY_TO_SUBMIT
    else if cl.isWorkInProgress then Category.WIP
    else if cl.getReviewers.length == 0 then Category.NO_REVIEWERS
    else if cl.hasUnresolvedComments then Category.OUTGOING_NEEDS_ATTENTION
    else if cl.isStale now then Category.STALE
    else Category.NONE
  else if ! cl.hasReviewed user then
    let scan := starLoop cl.getStars (some (-1)) none
    if jsEqNum scan.1 (some cl.currentRevisionNumber) then
      if scan.2 == some true then Category.NONE
      else Category.INCOMING_NEEDS_ATTENTION
    else if cl.authorCommentedAfterUser user then
      Category.INCOMING_NEEDS_ATTENTION
    else Category.NONE
  else Category.NONE

/-- Key characters of the attribute regexp class [-A-Za-z]. -/
def isAttrKeyChar (c : Char) : Bool :=
  c = '-' || (decide (c ≥ 'A') && decide (c ≤ 'Z')) ||
    (decide (c ≥ 'a') && decide (c ≤ 'z'))

/-- Model of the regexp ATTRIBUTE_RE = ^\s*([-A-Za-z]+)[=:](.*)$ applied to
one line (which contains no newline): optional leading whitespace, a
nonempty run of key characters, a separator = or :, then the value. The
key class is disjoint from whitespace and from the separators, so the
greedy match is this deterministic scan. -/
def attrMatch (line : String) : Option (String × String) :=
  let cs := line.data.dropWhile jsIsSpace
  let key := cs.takeWhile isAttrKeyChar
  let rest := cs.dropWhile isAttrKeyChar
  if key = [] then none
  else
    match rest with
    | sep :: value =>
      if sep = '=' || sep = ':' then some (String.mk key, String.mk value)
      else none
    | [] => none

/-- The attribute-peeling loop of Description.parse. The source walks the
index cutoff downward; here the input list is the reversed portion of the
line list below the current cutoff, consumed from the front, which visits
the same lines in the same order. Blank lines are stepped over, attribute
lines are pushed onto acc in scan order (bottom-to-top of the original
text), and the loop stops at the first non-blank non-attribute line,
returning the unconsumed lines and the accumulator. -/
def peelLoop : List String → List (String × String) →
    List String × List (String × String)
  | [], acc => ([], acc)
  | line :: rest, acc =>
    if line = "" then peelLoop rest acc
    else
      match attrMatch line with
      | some kv => peelLoop rest (acc ++ [kv])
      | none => (line :: rest, acc)

/-- Translation of Description.parse: split into lines, peel trailing blank
lines, peel attributes (never touching line 0, since only the tail after
line 0 is scanned), peel blank separator lines, join the remaining leading
lines as the message, and reverse the accumulated attributes. Returns
(message, attributes). -/
def Description.parse (text : String) : String × List (String × String) :=
  match jsSplitChar text '\n' with
  | [] => ("", [])
  | line0 :: tail =>
    let afterBlanks := tail.reverse.dropWhile (fun line => line == "")
    let peeled := peelLoop afterBlanks []
    let body := peeled.1.dropWhile (fun line => line == "")
    (String.intercalate "\n" (line0 :: body.reverse), peeled.2.reverse)

/-- Modelled from the spec: the Map class of src/utils.js, which is not
among the sources; per the spec the aggregator produces a mapping from
Category to an ordered sequence of Changelists, so the model is an
insertion-ordered association list with has, get, put and in-order
iteration (the entries list itself). put on a fresh key appends; put on
an existing key replaces its value in place. -/
structure Map (α β : Type) where
  entries : List (α × β)
  deriving Repr

/-- Membership test of the modelled utils.Map. -/
def Map.has [DecidableEq α] (m : Map α β) (key : α) : Bool :=
  (m.entries.lookup key).isSome

/-- Lookup of the modelled utils.Map (none when absent). -/
def Map.get [DecidableEq α] (m : Map α β) (key : α) : Option β :=
  m.entries.lookup key

/-- In-place value replacement at the first entry holding the key (keys
are unique in a map built by put, so this is the entry of the key). -/
def replaceEntry [DecidableEq α] : List (α × β) → α → β → List (α × β)
  | [], _, _ => []
  | entry :: rest, key, value =>
    if entry.1 = key then (key, value) :: rest
    else entry :: replaceEntry rest key value

/-- Insertion/update of the modelled utils.Map. -/
def Map.put [DecidableEq α] (m : Map α β) (key : α) (value : β) : Map α β :=
  if m.has key then ⟨replaceEntry m.entries key value⟩
  else ⟨m.entries ++ [(key, value)]⟩

/-- The result of one search query: a host, the bound user account, and the
wrapped changelists, as in the SearchResult class. -/
structure SearchResult where
  host : String
  user : Account
  data : List Changelist

/-- The forEach body of SearchResult.getCategoryMap: compute the category
of one changelist, create its bucket on first sight, and append the
changelist to the bucket unless an identical one is already there (the JS
cls.includes(cl) reference-identity test, read as equality of the
modelled values). -/
def categoryStep (user : Account) (now : Int)
    (result : Map Category (List Changelist)) (cl : Changelist) :
    Map Category (List Changelist) :=
  let attention := cl.getCategory user now
  let result :=
    if ! result.has attention then result.put attention [] else result
  let cls := (result.get attention).getD []
  if ! cls.contains cl then result.put attention (cls ++ [cl]) else result

/-- Translation of SearchResult.getCategoryMap: fold the forEach body over
the changelists of the query in order, starting from an empty map. now is
the clock reading threaded into getCategory. -/
def SearchResult.getCategoryMap (sr : SearchResult) (now : Int) :
    Map Category (List Changelist) :=
  sr.data.foldl (categoryStep sr.user now) ⟨[]⟩

/-- The result of multiple search queries, as in the SearchResults class. -/
structure SearchResults where
  results : List SearchResult

/-- The inner forEach body of SearchResults.getCategoryMap: create the
bucket of one category on first sight, then concatenate the incoming
bucket contents onto it. -/
def mergeStep (categories : Map Category (List Changelist))
    (entry : Category × List Changelist) : Map Category (List Changelist) :=
  let attention := entry.1
  let cls := entry.2
  let categories :=
    if ! categories.has attention then categories.put attention []
    else categories
  categories.put attention ((categories.get attention).getD [] ++ cls)

/-- Translation of SearchResults.getCategoryMap: fold the per-query maps in
query order, concatenating each bucket onto the accumulated bucket of the
same category (no cross-query deduplication). -/
def SearchResults.getCategoryMap (srs : SearchResults) (now : Int) :
    Map Category (List Changelist) :=
  srs.results.foldl
    (fun categories result =>
      (result.getCategoryMap now).entries.foldl mergeStep categories)
    ⟨[]⟩

/-- The owner-side rule list exactly as the spec words it: READY_TO_SUBMIT
if submittable and no unresolved comments; else WORK_IN_PROGRESS if marked
work-in-progress; else NO_REVIEWERS if the reviewer list is empty; else
OUTGOING_NEEDS_ATTENTION if there are unresolved comments; else STALE if
the staleness heuristic holds; else NONE. -/
def specOwnerCategory (cl : Changelist) (now : Int) : Category :=
  if cl.isSubmittable && ! cl.hasUnresolvedComments then
    Category.READY_TO_SUBMIT
  else if cl.isWorkInProgress then Category.WIP
  else if cl.getReviewers = [] then Category.NO_REVIEWERS
  else if cl.hasUnresolvedComments then Category.OUTGOING_NEEDS_ATTENTION
  else if cl.isStale now then Category.STALE
  else Category.NONE

/-- A star marker as the spec words it: a label of the form reviewed/<n> or
unreviewed/<n> with <n> a nonempty all-decimal numeral, read as the pair
(is-reviewed verdict, tagged revision number n). -/
def specStarMarker (s : String) : Option (Bool × Int) :=
  match jsSplitChar s '/' with
  | [p0, p1] =>
    if (p0 == "reviewed" || p0 == "unreviewed") &&
        (p1 != "" && p1.data.all Char.isDigit) then
      some (p0 == "reviewed", (digitsVal p1.data : Int))
    else none
  | _ => none

/-- A star label is well formed when, if it has exactly two slash-separated
parts whose first part is one of the two marker keywords, its second part
is a nonempty all-decimal numeral (so the code and the spec agree on what
it tags). -/
def starWellFormed (s : String) : Bool :=
  match jsSplitChar s '/' with
  | [p0, p1] =>
    if p0 == "reviewed" || p0 == "unreviewed" then
      p1 != "" && p1.data.all Char.isDigit
    else true
  | _ => true

/-- One selection step among star markers: keep the marker with the higher
tagged revision number, preferring the earlier one on ties. -/
def markerStep (best : Option (Bool × Int)) (m : Bool × Int) :
    Option (Bool × Int) :=
  match best with
  | none => some m
  | some b => if m.2 > b.2 then some m else some b

/-- Selection among the star markers as the spec words it: the marker with
the highest tagged revision number (the first one when several tie). -/
def specSelectMarker (stars : List String) : Option (Bool × Int) :=
  (stars.filterMap specStarMarker).foldl markerStep none

/-- The revision number tracked for a selected marker, with -1 when no
marker has been selected yet (the initial value of the source loop). -/
def markerVal : Option (Bool × Int) → Int
  | none => -1
  | some m => m.2

/-- The reviewed verdict tracked for a selected marker (null = none before
any marker is selected). -/
def markerRev : Option (Bool × Int) → Option Bool
  | none => none
  | some m => some m.1

/-- The fallback heuristic as the spec words it: filter out ignorable
messages, then keep messages authored by the user or by the owner; the
category is INCOMING_NEEDS_ATTENTION if the last such message is authored
by the owner or no such message exists, and NONE otherwise. -/
def specFallbackCategory (cl : Changelist) (user : Account) : Category :=
  let relevant := (cl.getMessages.filter (fun m => ! m.shouldBeIgnored)).filter
    (fun m => m.isAuthoredBy user || m.isAuthoredBy cl.owner)
  match relevant.getLast? with
  | none => Category.INCOMING_NEEDS_ATTENTION
  | some lastMessage =>
    if lastMessage.isAuthoredBy cl.owner then Category.INCOMING_NEEDS_ATTENTION
    else Category.NONE

/-- First-seen-order deduplication, the bucket discipline the spec words
for the aggregator: each element is appended at its first occurrence and
never inserted twice. -/
def firstSeen {α : Type} [DecidableEq α] (l : List α) : List α :=
  l.foldl (fun acc a => if a ∈ acc then acc else acc ++ [a]) []

/-- Concrete changelist for claim C2: user 2 is not the owner, has a
positive Code-Review vote, and an unreviewed/3 star while the current
revision number is 3. -/
def exC2 : Changelist :=
  { owner := ⟨1⟩, submittable := false, unresolvedCommentCount := 0,
    workInProgress := false, insertions := 0, deletions := 0,
    labels := [("Code-Review", ⟨some [⟨2, 1⟩]⟩)],
    messages := [], stars := some ["unreviewed/3"],
    currentRevisionNumber := 3 }

/-- Concrete changelist for claim C3: owned by user 1, submittable with no
unresolved comments, and also marked work-in-progress. -/
def exC3 : Changelist :=
  { owner := ⟨1⟩, submittable := true, unresolvedCommentCount := 0,
    workInProgress := true, insertions := 0, deletions := 0,
    labels := [], messages := [], stars := none,
    currentRevisionNumber := 1 }

/-- Concrete changelist for claim C4 (counterexample): the well-formed
marker reviewed/3 tags the current revision 3, but the later malformed
label unreviewed/x parses to NaN and resets the tracked maximum. -/
def exC4 : Changelist :=
  { owner := ⟨1⟩, submittable := false, unresolvedCommentCount := 0,
    workInProgress := false, insertions := 0, deletions := 0,
    labels := [], messages := [],
    stars := some ["reviewed/3", "unreviewed/x"],
    currentRevisionNumber := 3 }

/-- Concrete changelist for claim C4 (witness): a single well-formed
unreviewed/3 marker tagging the current revision 3. -/
def exC4w : Changelist :=
  { owner := ⟨1⟩, submittable := false, unresolvedCommentCount := 0,
    workInProgress := false, insertions := 0, deletions := 0,
    labels := [], messages := [], stars := some ["unreviewed/3"],
    currentRevisionNumber := 3 }

/-- Concrete changelist for claim C5: no stars, one non-ignorable message
authored by the owner. -/
def exC5 : Changelist :=
  { owner := ⟨1⟩, submittable := false, unresolvedCommentCount := 0,
    workInProgress := false, insertions := 0, deletions := 0,
    labels := [], messages := [⟨none, ⟨1⟩, 0⟩], stars := none,
    currentRevisionNumber := 1 }

/-- Concrete changelist for claim C6: a single non-ignorable message at
time 0. -/
def exC6 : Changelist :=
  { owner := ⟨1⟩, submittable := false, unresolvedCommentCount := 0,
    workInProgress := false, insertions := 0, deletions := 0,
    labels := [], messages := [⟨none, ⟨2⟩, 0⟩], stars := none,
    currentRevisionNumber := 1 }

/-- Concrete changelist for claim C7: owned by user 1, not submittable, no
unresolved comments, not work-in-progress, one reviewer (user 2), and one
message at time 0, so the owner category is NONE or STALE depending only
on the clock. -/
def exC7 : Changelist :=
  { owner := ⟨1⟩, submittable := false, unresolvedCommentCount := 0,
    workInProgress := false, insertions := 0, deletions := 0,
    labels := [("Code-Review", ⟨some [⟨2, 0⟩]⟩)],
    messages := [⟨none, ⟨2⟩, 0⟩], stars := none,
    currentRevisionNumber := 1 }

/-- Concrete changelist for claim C10: user 2 is not the owner. -/
def exC10 : Changelist :=
  { owner := ⟨1⟩, submittable := false, unresolvedCommentCount := 0,
    workInProgress := false, insertions := 0, deletions := 0,
    labels := [], messages := [], stars := none,
    currentRevisionNumber := 1 }

/-- A present tag makes shouldBeIgnored the conjunction of the prefix test
and the two exemption tests. -/
lemma shouldBeIgnored_some (t : String) (a : Account) (d : Int) :
    Message.shouldBeIgnored ⟨some t, a, d⟩ =
      (jsStartsWith t "autogenerated:" &&
        ! (t == "autogenerated:gerrit:newPatchSet") &&
        ! (t == "autogenerated:gerrit:newWipPatchSet")) := by
  simp only [Message.shouldBeIgnored]
  split_ifs with h0 h1 h2 h3
  · subst h0; decide
  · simp only [Bool.not_eq_true'] at h1
    simp [h1]
  · subst h2; decide
  · subst h3; decide
  · simp only [Bool.not_eq_true'] at h1
    simp [h1, h2, h3]

/-- C1: shouldBeIgnored returns true iff the tag is present, starts with
the literal "autogenerated:", and is not exactly
"autogenerated:gerrit:newPatchSet" or
"autogenerated:gerrit:newWipPatchSet"; a message without a tag is never
ignored. -/
theorem C1_shouldBeIgnored_characterization (m : Message) :
    (m.shouldBeIgnored = true ↔
      ∃ t, m.tag = some t ∧ jsStartsWith t "autogenerated:" = true ∧
        t ≠ "autogenerated:gerrit:newPatchSet" ∧
        t ≠ "autogenerated:gerrit:newWipPatchSet") ∧
    (m.tag = none → m.shouldBeIgnored = false) := by
  obtain ⟨tag, a, d⟩ := m
  cases tag with
  | none => simp [Message.shouldBeIgnored]
  | some t =>
    simp only [shouldBeIgnored_some, Option.some.injEq, reduceCtorEq,
      false_implies, and_true]
    constructor
    · intro h
      rw [Bool.and_eq_true, Bool.and_eq_true] at h
      refine ⟨t, rfl, h.1.1, ?_, ?_⟩
      · simpa using h.1.2
      · simpa using h.2
    · rintro ⟨t2, ht2, hs, h1, h2⟩
      cases ht2
      simp [hs, h1, h2]

/-- Witness for C1 at a concrete autogenerated tag. -/
theorem C1_witness :
    (Message.mk (some "autogenerated:gerrit:abandon") ⟨1⟩ 0).shouldBeIgnored
      = true :=
  (C1_shouldBeIgnored_characterization _).1.mpr
    ⟨"autogenerated:gerrit:abandon", rfl, by decide, by decide, by decide⟩

/-- C2 counterexample: user 2 is not the owner of exC2 and has a positive
Code-Review vote on it, and the star marker unreviewed/3 tags the current
revision 3; the claim then demands the marker verdict
INCOMING_NEEDS_ATTENTION, but getCategory returns NONE (the source only
consults star markers when the user has not reviewed). -/
theorem C2_counterexample :
    exC2.isOwner ⟨2⟩ = false ∧ exC2.hasReviewed ⟨2⟩ = true ∧
    specSelectMarker exC2.getStars = some (false, 3) ∧
    exC2.currentRevisionNumber = 3 ∧
    exC2.getCategory ⟨2⟩ 0 = Category.NONE ∧
    exC2.getCategory ⟨2⟩ 0 ≠ Category.INCOMING_NEEDS_ATTENTION := by
  decide

/-- C2 (amended): for every changelist and every non-owner user who has
already reviewed it, getCategory returns NONE unconditionally; star
markers are consulted only when the user has not reviewed. -/
theorem C2_amended_reviewed_gives_NONE (cl : Changelist) (user : Account)
    (now : Int) (howner : cl.isOwner user = false)
    (hrev : cl.hasReviewed user = true) :
    cl.getCategory user now = Category.NONE := by
  simp [Changelist.getCategory, howner, hrev]

/-- Witness for the amended C2 at exC2. -/
theorem C2_amended_witness : exC2.getCategory ⟨2⟩ 0 = Category.NONE :=
  C2_amended_reviewed_gives_NONE exC2 ⟨2⟩ 0 (by decide) (by decide)

/-- C3: for an owner, getCategory evaluates exactly the ordered first-match
rule list of the spec, and in particular a submittable changelist with no
unresolved comments is READY_TO_SUBMIT regardless of the work-in-progress
flag. -/
theorem C3_owner_rule_list (cl : Changelist) (user : Account) (now : Int)
    (howner : cl.isOwner user = true) :
    cl.getCategory user now = specOwnerCategory cl now ∧
    (cl.isSubmittable = true → cl.unresolvedCommentCount = 0 →
      cl.getCategory user now = Category.READY_TO_SUBMIT) := by
  constructor
  · simp only [Changelist.getCategory, specOwnerCategory, howner, if_true]
    split_ifs <;> simp_all [List.length_eq_zero]
  · intro hs hcount
    have hu : cl.hasUnresolvedComments = false := by
      simp [Changelist.hasUnresolvedComments, hcount]
    simp [Changelist.getCategory, howner, hs, hu]

/-- Witness for C3 at exC3, which is also marked work-in-progress. -/
theorem C3_witness :
    exC3.getCategory ⟨1⟩ 0 = specOwnerCategory exC3 0 ∧
    exC3.isWorkInProgress = true ∧
    exC3.getCategory ⟨1⟩ 0 = Category.READY_TO_SUBMIT := by
  have h := C3_owner_rule_list exC3 ⟨1⟩ 0 (by decide)
  exact ⟨h.1, by decide, h.2 (by decide) (by decide)⟩

/-- C6: isStale selects the last non-ignorable message; if every message
is ignorable it falls back to the last message overall; a changelist with
no messages at all is stale; otherwise it is stale iff now minus the
selected timestamp strictly exceeds 86400000 milliseconds (24 hours). -/
theorem C6_isStale_characterization (cl : Changelist) (now : Int) :
    (cl.getMessages = [] → cl.isStale now = true) ∧
    (∀ m, (cl.getMessages.filter (fun msg => ! msg.shouldBeIgnored)).getLast?
        = some m → (cl.isStale now = true ↔ now - m.date > 86400000)) ∧
    (cl.getMessages.filter (fun msg => ! msg.shouldBeIgnored) = [] →
      ∀ m, cl.getMessages.getLast? = some m →
        (cl.isStale now = true ↔ now - m.date > 86400000)) := by
  refine ⟨?_, ?_, ?_⟩
  · intro h
    simp [Changelist.isStale, h]
  · intro m hm
    simp only [Changelist.isStale, hm]
    norm_num
  · intro hf m hm
    simp only [Changelist.isStale, hf, hm, List.getLast?_nil]
    norm_num

/-- Witness for C6: a changelist whose only (non-ignorable) message is
just over 24 hours old is stale. -/
theorem C6_witness : exC6.isStale 86400001 = true :=
  ((C6_isStale_characterization exC6 86400001).2.1 ⟨none, ⟨2⟩, 0⟩
    (by decide)).mpr (by norm_num)

/-- Reassociation of an if over the last-message match: deciding first and
branching equals branching on the match directly. -/
lemma ite_last_category (o : Option Message) (ow : Account) :
    (if (match o with
         | none => true
         | some lastMessage => lastMessage.isAuthoredBy ow) = true then
       Category.INCOMING_NEEDS_ATTENTION
     else Category.NONE) =
    match o with
    | none => Category.INCOMING_NEEDS_ATTENTION
    | some lastMessage =>
      if lastMessage.isAuthoredBy ow then Category.INCOMING_NEEDS_ATTENTION
      else Category.NONE := by
  cases o with
  | none => rfl
  | some m => cases h : m.isAuthoredBy ow <;> simp [h]

/-- The combined message filter of authorCommentedAfterUser coincides with
the two-stage filter the spec describes. -/
lemma relevantMessages_eq (cl : Changelist) (user : Account) :
    cl.getMessages.filter (fun message =>
      if message.shouldBeIgnored then false
      else message.isAuthoredBy user || message.isAuthoredBy cl.owner) =
    (cl.getMessages.filter (fun m => ! m.shouldBeIgnored)).filter
      (fun m => m.isAuthoredBy user || m.isAuthoredBy cl.owner) := by
  rw [List.filter_filter]
  apply List.filter_congr
  intro m _
  cases h : m.shouldBeIgnored <;> simp [h]

/-- C5: for a non-owner user who has not reviewed the changelist and whose
star scan does not match the current revision number, getCategory is the
fallback heuristic of the spec: INCOMING_NEEDS_ATTENTION iff the last
non-ignorable message authored by the user or the owner is the owner's or
does not exist. -/
theorem C5_fallback_heuristic (cl : Changelist) (user : Account) (now : Int)
    (howner : cl.isOwner user = false)
    (hrev : cl.hasReviewed user = false)
    (hstar : jsEqNum (starLoop cl.getStars (some (-1)) none).1
      (some cl.currentRevisionNumber) = false) :
    cl.getCategory user now = specFallbackCategory cl user := by
  simp only [Changelist.getCategory, howner, Bool.false_eq_true, if_false,
    hrev, Bool.not_false, if_true, hstar]
  simp only [specFallbackCategory, Changelist.authorCommentedAfterUser,
    ← relevantMessages_eq]
  exact ite_last_category _ cl.owner

/-- Witness for C5 at exC5: the last relevant message is the owner's, so
the category is INCOMING_NEEDS_ATTENTION. -/
theorem C5_witness :
    exC5.getCategory ⟨2⟩ 0 = specFallbackCategory exC5 ⟨2⟩ :=
  C5_fallback_heuristic exC5 ⟨2⟩ 0 (by decide) (by decide) (by decide)

/-- A decimal digit is not one of the modelled whitespace characters. -/
lemma jsIsSpace_of_digit {c : Char} (h : c.isDigit = true) :
    jsIsSpace c = false := by
  rw [Char.isDigit, Bool.and_eq_true, decide_eq_true_eq, decide_eq_true_eq] at h
  rw [jsIsSpace]
  by_cases e1 : c = ' '
  · subst e1; exact absurd h.1 (by decide)
  by_cases e2 : c = Char.ofNat 9
  · subst e2; exact absurd h.1 (by decide)
  by_cases e3 : c = Char.ofNat 10
  · subst e3; exact absurd h.1 (by decide)
  by_cases e4 : c = Char.ofNat 13
  · subst e4; exact absurd h.1 (by decide)
  by_cases e5 : c = Char.ofNat 11
  · subst e5; exact absurd h.1 (by decide)
  by_cases e6 : c = Char.ofNat 12
  · subst e6; exact absurd h.1 (by decide)
  simp [e1, e2, e3, e4, e5, e6]

/-- On a nonempty all-decimal string, the modelled parseInt returns the
decimal value. -/
lemma jsParseInt_digits (s : String) (hne : s.data ≠ [])
    (hd : s.data.all Char.isDigit = true) :
    jsParseInt s = some ((digitsVal s.data : Nat) : Int) := by
  obtain ⟨c, cs, hcs⟩ : ∃ c cs, s.data = c :: cs := by
    cases hsd : s.data with
    | nil => exact absurd hsd hne
    | cons c cs => exact ⟨c, cs, rfl⟩
  rw [hcs] at hd
  rw [List.all_cons, Bool.and_eq_true] at hd
  obtain ⟨hc, hcsall⟩ := hd
  have hdrop : (s.data.dropWhile jsIsSpace) = c :: cs := by
    rw [hcs, List.dropWhile_cons, jsIsSpace_of_digit hc]
    simp
  have hminus : c ≠ '-' := by
    intro e; subst e; exact absurd hc (by decide)
  have hplus : c ≠ '+' := by
    intro e; subst e; exact absurd hc (by decide)
  have htake : (c :: cs).takeWhile Char.isDigit = c :: cs := by
    rw [List.takeWhile_eq_self_iff]
    intro x hx
    rcases List.mem_cons.mp hx with h | h
    · subst h; exact hc
    · exact (List.all_eq_true.mp hcsall) x h
  rw [jsParseInt]
  simp only [hdrop, List.head?_cons, Option.some.injEq, hminus, hplus,
    or_self, if_neg, not_false_eq_true, false_or, if_false, List.tail_cons]
  have hsign : (if c = '-' then (-1 : Int) else 1) = 1 := if_neg hminus
  have hnohex :
      ¬ ((c = '0') ∧ (cs.head? = some 'x' ∨ cs.head? = some 'X')) := by
    rintro ⟨h0, hx | hx⟩ <;>
    · cases cs with
      | nil => exact Option.noConfusion hx
      | cons x rest =>
        rw [List.head?_cons, Option.some.injEq] at hx
        subst hx
        rw [List.all_cons, Bool.and_eq_true] at hcsall
        exact absurd hcsall.1 (by decide)
  rw [if_neg hnohex, htake, if_neg (List.cons_ne_nil c cs), one_mul, hcs]

/-- Under well-formed star labels, the source star scan computes exactly
the spec selection fold: the tracked latest revision number and verdict
are those of the selected marker. -/
lemma starLoop_wf (stars : List String) (b : Option (Bool × Int))
    (hwf : stars.all starWellFormed = true) :
    starLoop stars (some (markerVal b)) (markerRev b) =
      (some (markerVal ((stars.filterMap specStarMarker).foldl markerStep b)),
        markerRev ((stars.filterMap specStarMarker).foldl markerStep b)) := by
  induction stars generalizing b with
  | nil => simp [starLoop]
  | cons s rest ih =>
    rw [List.all_cons, Bool.and_eq_true] at hwf
    obtain ⟨hs, hrest⟩ := hwf
    rcases hsp : jsSplitChar s '/' with _ | ⟨p0, _ | ⟨p1, _ | ⟨p2, tl⟩⟩⟩
    · simp only [starLoop, hsp, List.filterMap_cons, specStarMarker]
      exact ih b hrest
    · simp only [starLoop, hsp, List.filterMap_cons, specStarMarker]
      exact ih b hrest
    · by_cases h0 : p0 = "reviewed" ∨ p0 = "unreviewed"
      · have hkw : (p0 != "reviewed" && p0 != "unreviewed") = false := by
          rcases h0 with h | h <;> subst h <;> decide
        have hkw2 : (p0 == "reviewed" || p0 == "unreviewed") = true := by
          rcases h0 with h | h <;> subst h <;> decide
        simp only [starWellFormed, hsp] at hs
        rw [if_pos hkw2] at hs
        rw [Bool.and_eq_true] at hs
        obtain ⟨hp1ne, hp1d⟩ := hs
        have hp1data : p1.data ≠ [] := by
          intro e
          rw [bne_iff_ne] at hp1ne
          exact hp1ne (by cases p1; simp at e; simp [e])
        have hparse := jsParseInt_digits p1 hp1data hp1d
        have hmark : specStarMarker s =
            some (p0 == "reviewed", ((digitsVal p1.data : Nat) : Int)) := by
          simp only [specStarMarker, hsp]
          rw [if_pos]
          rw [hkw2, Bool.true_and, Bool.and_eq_true]
          exact ⟨hp1ne, hp1d⟩
        simp only [starLoop, hsp, hkw, Bool.false_eq_true, if_false,
          hparse, List.filterMap_cons, hmark]
        cases b with
        | none =>
          have hle : jsLe (some ((digitsVal p1.data : Nat) : Int))
              (some (markerVal none)) = false := by
            rw [jsLe, markerVal]
            simp only [decide_eq_false_iff_not, not_le]
            have : (0 : Int) ≤ ((digitsVal p1.data : Nat) : Int) :=
              Int.natCast_nonneg _
            omega
          rw [hle]
          simp only [Bool.false_eq_true, if_false, List.foldl_cons]
          exact ih (some (p0 == "reviewed", ((digitsVal p1.data : Nat) : Int)))
            hrest
        | some bb =>
          by_cases hle : ((digitsVal p1.data : Nat) : Int) ≤ bb.2
          · have hle2 : jsLe (some ((digitsVal p1.data : Nat) : Int))
                (some (markerVal (some bb))) = true := by
              rw [jsLe, markerVal]
              simpa using hle
            rw [hle2]
            simp only [if_true, List.foldl_cons, markerStep]
            rw [if_neg (by omega)]
            exact ih (some bb) hrest
          · have hle2 : jsLe (some ((digitsVal p1.data : Nat) : Int))
                (some (markerVal (some bb))) = false := by
              rw [jsLe, markerVal]
              simpa using hle
            rw [hle2]
            simp only [Bool.false_eq_true, if_false, List.foldl_cons,
              markerStep]
            rw [if_pos (by omega)]
            exact ih (some (p0 == "reviewed", ((digitsVal p1.data : Nat) : Int)))
              hrest
      · push_neg at h0
        have hkw : (p0 != "reviewed" && p0 != "unreviewed") = true := by
          rw [Bool.and_eq_true, bne_iff_ne, bne_iff_ne]
          exact ⟨fun e => h0.1 e, fun e => h0.2 e⟩
        have hmark : specStarMarker s = none := by
          simp only [specStarMarker, hsp]
          rw [if_neg]
          rw [Bool.and_eq_true, Bool.or_eq_true]
          rintro ⟨h | h, _⟩
          · exact h0.1 (by simpa using h)
          · exact h0.2 (by simpa using h)
        simp only [starLoop, hsp, hkw, if_true, List.filterMap_cons, hmark]
        exact ih b hrest
    · simp only [starLoop, hsp, List.filterMap_cons, specStarMarker]
      exact ih b hrest

/-- C4 counterexample: in exC4 the only well-formed star marker is
reviewed/3 and it tags the current revision 3, so the claim demands NONE;
but the malformed later label unreviewed/x makes the source loop track
NaN, the marker branch is skipped, and getCategory falls through to the
message heuristic, returning INCOMING_NEEDS_ATTENTION. -/
theorem C4_counterexample :
    exC4.isOwner ⟨2⟩ = false ∧ exC4.hasReviewed ⟨2⟩ = false ∧
    specSelectMarker exC4.getStars = some (true, 3) ∧
    exC4.currentRevisionNumber = 3 ∧
    exC4.getCategory ⟨2⟩ 0 = Category.INCOMING_NEEDS_ATTENTION ∧
    exC4.getCategory ⟨2⟩ 0 ≠ Category.NONE := by
  decide

/-- C4 (amended): when every star label that looks like a reviewed or
unreviewed marker has a numeric revision part, the marker with the
highest tagged number (the first on ties) is selected, and if that number
equals the current revision number, a non-owner non-reviewer user gets
NONE for a reviewed verdict and INCOMING_NEEDS_ATTENTION for an
unreviewed one. -/
theorem C4_amended_star_markers (cl : Changelist) (user : Account)
    (now : Int) (isRev : Bool) (n : Int)
    (howner : cl.isOwner user = false)
    (hrev : cl.hasReviewed user = false)
    (hwf : cl.getStars.all starWellFormed = true)
    (hsel : specSelectMarker cl.getStars = some (isRev, n))
    (hcur : n = cl.currentRevisionNumber) :
    cl.getCategory user now =
      (if isRev then Category.NONE else Category.INCOMING_NEEDS_ATTENTION) := by
  have hscan := starLoop_wf cl.getStars none hwf
  rw [specSelectMarker] at hsel
  rw [hsel] at hscan
  simp only [markerVal, markerRev] at hscan
  simp only [Changelist.getCategory, howner, Bool.false_eq_true, if_false,
    hrev, Bool.not_false, if_true, hscan]
  subst hcur
  simp only [jsEqNum, beq_self_eq_true, if_true]
  cases isRev <;> simp

/-- Witness for the amended C4: the single marker unreviewed/3 tags the
current revision 3 and yields INCOMING_NEEDS_ATTENTION. -/
theorem C4_amended_witness :
    exC4w.getCategory ⟨2⟩ 0 =
      (if false then Category.NONE else Category.INCOMING_NEEDS_ATTENTION) :=
  C4_amended_star_markers exC4w ⟨2⟩ 0 false 3 (by decide) (by decide)
    (by decide) (by decide) (by decide)

/-- C7 counterexample: the same changelist and user yield different
categories at different clock readings, so getCategory is not a function
of the changelist state and the user identity alone. -/
theorem C7_counterexample :
    exC7.getCategory ⟨1⟩ 0 = Category.NONE ∧
    exC7.getCategory ⟨1⟩ 86400001 = Category.STALE ∧
    exC7.getCategory ⟨1⟩ 0 ≠ exC7.getCategory ⟨1⟩ 86400001 := by
  decide

/-- C7 (amended): getCategory is a deterministic pure function of the
changelist state, the user identity, and the clock reading sampled by
isStale; for a non-owner user it does not depend on the clock at all. -/
theorem C7_amended_determinism (cl₁ cl₂ : Changelist) (u₁ u₂ : Account)
    (t₁ t₂ : Int) (hcl : cl₁ = cl₂) (hu : u₁ = u₂)
    (ht : t₁ = t₂ ∨ cl₁.isOwner u₁ = false) :
    cl₁.getCategory u₁ t₁ = cl₂.getCategory u₂ t₂ := by
  subst hcl; subst hu
  rcases ht with h | h
  · subst h; rfl
  · simp [Changelist.getCategory, h]

/-- Witness for the amended C7: a non-owner category is clock-independent. -/
theorem C7_amended_witness :
    exC7.getCategory ⟨2⟩ 0 = exC7.getCategory ⟨2⟩ 86400001 :=
  C7_amended_determinism exC7 exC7 ⟨2⟩ ⟨2⟩ 0 86400001 rfl rfl
    (Or.inr (by decide))

/-- The empty line never matches the attribute regexp. -/
lemma attrMatch_empty : attrMatch "" = none := rfl

/-- Characterization of the attribute-peeling loop: it consumes an initial
segment of blank or attribute lines, accumulates the attribute matches in
scan order, and returns the unconsumed remainder. -/
lemma peelLoop_spec (l : List String) (acc : List (String × String)) :
    ∃ peeled rest2, l = peeled ++ rest2 ∧
      peelLoop l acc = (rest2, acc ++ peeled.filterMap attrMatch) := by
  induction l generalizing acc with
  | nil => exact ⟨[], [], rfl, by simp [peelLoop]⟩
  | cons line rest ih =>
    by_cases hb : line = ""
    · obtain ⟨peeled, rest2, hdecomp, hrun⟩ := ih acc
      refine ⟨line :: peeled, rest2, by rw [List.cons_append, ← hdecomp], ?_⟩
      simp only [peelLoop, if_pos hb, hrun, List.filterMap_cons]
      subst hb
      rw [attrMatch_empty]
    · cases hm : attrMatch line with
      | none =>
        refine ⟨[], line :: rest, rfl, ?_⟩
        simp only [peelLoop, if_neg hb, hm, List.filterMap_nil,
          List.append_nil]
      | some kv =>
        obtain ⟨peeled, rest2, hdecomp, hrun⟩ := ih (acc ++ [kv])
        refine ⟨line :: peeled, rest2, by rw [List.cons_append, ← hdecomp], ?_⟩
        simp only [peelLoop, if_neg hb, hm, hrun, List.filterMap_cons,
          List.append_assoc, List.singleton_append]

/-- C8: Description.parse returns the attributes in original top-to-bottom
order (the bottom-to-top peeled list reversed, here stated as the
attribute matches of the dropped suffix of lines in input order), peels
attributes only from the lines after line 0, and always keeps line 0 at
the head of the returned message body. -/
theorem C8_parse_shape (text line0 : String) (tail : List String)
    (hsplit : jsSplitChar text '\n' = line0 :: tail) :
    ∃ k, (Description.parse text).1 =
        String.intercalate "\n" (line0 :: tail.take k) ∧
      (Description.parse text).2 = (tail.drop k).filterMap attrMatch := by
  obtain ⟨peeled, rest2, hdecomp, hrun⟩ :=
    peelLoop_spec (tail.reverse.dropWhile (fun line => line == "")) []
  have hparse : Description.parse text =
      (String.intercalate "\n"
        (line0 :: (rest2.dropWhile (fun line => line == "")).reverse),
       (peeled.filterMap attrMatch).reverse) := by
    simp only [Description.parse, hsplit, hrun, List.nil_append]
  have htail : tail.reverse =
      tail.reverse.takeWhile (fun line => line == "") ++
        (peeled ++ rest2) := by
    rw [← hdecomp, List.takeWhile_append_dropWhile]
  have hrest2 : rest2 =
      rest2.takeWhile (fun line => line == "") ++
        rest2.dropWhile (fun line => line == "") :=
    (List.takeWhile_append_dropWhile _ _).symm
  have reverse_decomp : ∀ t pe r2 b2 bd : List String,
      tail.reverse = t ++ (pe ++ r2) → r2 = b2 ++ bd →
      tail = bd.reverse ++ (b2.reverse ++ (pe.reverse ++ t.reverse)) := by
    intro t pe r2 b2 bd h1 h2
    subst h2
    conv_lhs => rw [← List.reverse_reverse tail]
    rw [h1]
    simp [List.reverse_append, List.append_assoc]
  have htail2 := reverse_decomp _ _ _ _ _ htail hrest2
  have hblanksNone : ∀ (l : List String),
      (∀ a ∈ l, (a == "") = true) → l.reverse.filterMap attrMatch = [] := by
    intro l hl
    rw [List.filterMap_eq_nil_iff]
    intro a ha
    have ha2 : a ∈ l := List.mem_reverse.mp ha
    have : a = "" := by simpa using hl a ha2
    rw [this, attrMatch_empty]
  refine ⟨(rest2.dropWhile (fun line => line == "")).reverse.length, ?_, ?_⟩
  · rw [hparse]
    conv_rhs => rw [htail2, List.take_left]
  · rw [hparse]
    conv_rhs => rw [htail2, List.drop_left]
    rw [List.filterMap_append, List.filterMap_append]
    have h1 : ∀ a ∈ List.takeWhile (fun line => line == "") rest2,
        (a == "") = true := by
      intro a ha
      simpa using List.mem_takeWhile_imp ha
    have h2 : ∀ a ∈ List.takeWhile (fun line => line == "") tail.reverse,
        (a == "") = true := by
      intro a ha
      simpa using List.mem_takeWhile_imp ha
    rw [hblanksNone _ h1, hblanksNone _ h2]
    simp

/-- Witness for C8 on a two-line message with one attribute. -/
theorem C8_witness :
    ∃ k, (Description.parse "Title\nBug: 1").1 =
        String.intercalate "\n" ("Title" :: List.take k ["Bug: 1"]) ∧
      (Description.parse "Title\nBug: 1").2 =
        (List.drop k ["Bug: 1"]).filterMap attrMatch :=
  C8_parse_shape "Title\nBug: 1" "Title" ["Bug: 1"] (by decide)

/-- C10: a non-owner user only ever receives NONE or
INCOMING_NEEDS_ATTENTION from getCategory. -/
theorem C10_nonowner_categories (cl : Changelist) (user : Account)
    (now : Int) (howner : cl.isOwner user = false) :
    cl.getCategory user now = Category.NONE ∨
    cl.getCategory user now = Category.INCOMING_NEEDS_ATTENTION := by
  simp only [Changelist.getCategory, howner, Bool.false_eq_true, if_false]
  split_ifs <;> simp

/-- Witness for C10 at exC10. -/
theorem C10_witness :
    exC10.getCategory ⟨2⟩ 0 = Category.NONE ∨
    exC10.getCategory ⟨2⟩ 0 = Category.INCOMING_NEEDS_ATTENTION :=
  C10_nonowner_categories exC10 ⟨2⟩ 0 (by decide)

/-- Lookup after replaceEntry: the key being replaced reads the new value
when it was present, every other key is unchanged. -/
lemma lookup_replaceEntry {α β : Type} [DecidableEq α] (l : List (α × β))
    (k k2 : α) (v : β) :
    (replaceEntry l k v).lookup k2 =
      if k2 = k ∧ (l.lookup k).isSome then some v else l.lookup k2 := by
  induction l with
  | nil => simp [replaceEntry]
  | cons e t ih =>
    obtain ⟨a, b⟩ := e
    rw [replaceEntry]
    by_cases hak : a = k
    · subst hak
      rw [if_pos rfl]
      by_cases h2 : k2 = a
      · subst h2
        simp [List.lookup_cons]
      · have hfalse : (k2 == a) = false := beq_eq_false_iff_ne.mpr h2
        simp [List.lookup_cons, h2, hfalse]
    · rw [if_neg hak]
      by_cases h2 : k2 = a
      · subst h2
        rw [if_neg (fun hx => hak hx.1)]
        simp
      · simp only [List.lookup_cons, ih]
        have hbeq : (k2 == a) = false := beq_eq_false_iff_ne.mpr h2
        have hbeq2 : (k == a) = false :=
          beq_eq_false_iff_ne.mpr (fun e => hak e.symm)
        rw [hbeq, hbeq2]

/-- How Map.get reads through Map.put: the written key returns the new
value, every other key is unchanged. -/
lemma Map.get_put {α β : Type} [DecidableEq α] (m : Map α β) (k k2 : α)
    (v : β) :
    (m.put k v).get k2 = if k2 = k then some v else m.get k2 := by
  rw [Map.put]
  by_cases h : m.has k
  · rw [if_pos h, Map.get, lookup_replaceEntry]
    rw [Map.has] at h
    by_cases h2 : k2 = k
    · rw [if_pos ⟨h2, h⟩, if_pos h2]
    · rw [if_neg (fun hc => h2 hc.1), if_neg h2, Map.get]
  · rw [if_neg h, Map.get, List.lookup_append]
    have hn : m.entries.lookup k = none := by
      rw [Map.has] at h
      cases hl : m.entries.lookup k with
      | none => rfl
      | some v2 => rw [hl] at h; simp at h
    by_cases h2 : k2 = k
    · subst h2
      rw [hn, List.lookup_cons_self, Option.none_or, if_pos rfl]
    · have : ([(k, v)] : List (α × β)).lookup k2 = none := by
        rw [List.lookup_cons]
        rw [show (k2 == k) = false by rw [beq_eq_false_iff_ne]; exact h2]
        rfl
      rw [this, Option.or_none, if_neg h2, Map.get]

/-- The empty modelled map reads none at every key. -/
lemma Map.get_empty {α β : Type} [DecidableEq α] (c : α) :
    (Map.mk ([] : List (α × β))).get c = none := rfl

/-- A map whose has test fails reads none, hence an empty default bucket. -/
lemma Map.get_of_not_has {α β : Type} [DecidableEq α] (m : Map α β) (k : α)
    (h : m.has k = false) : m.get k = none := by
  rw [Map.has] at h
  rw [Map.get]
  cases hl : m.entries.lookup k with
  | none => rfl
  | some v => rw [hl] at h; simp at h

/-- The ensure-bucket stage of the aggregator steps: the bucket of the key
reads the same default contents, and every other key is untouched. -/
lemma ensure_bucket {α : Type} [DecidableEq α]
    (M : Map α (List Changelist)) (k : α) :
    ((((if ! M.has k then M.put k [] else M) : Map α (List Changelist)).get
        k).getD [] = (M.get k).getD []) ∧
    (∀ c2, c2 ≠ k →
      ((if ! M.has k then M.put k [] else M) : Map α (List Changelist)).get
        c2 = M.get c2) := by
  cases hhas : M.has k with
  | true => exact ⟨rfl, fun c2 _ => rfl⟩
  | false =>
    constructor
    · show ((M.put k []).get k).getD [] = (M.get k).getD []
      rw [Map.get_put, if_pos rfl, Map.get_of_not_has M k hhas]
      rfl
    · intro c2 hc2
      show (M.put k []).get c2 = M.get c2
      rw [Map.get_put, if_neg hc2]

/-- The bucket update of one categoryStep, read at any category: the
changelist is appended to the bucket of its category when absent, every
other bucket is unchanged. -/
lemma categoryStep_get (user : Account) (now : Int)
    (M : Map Category (List Changelist)) (cl : Changelist) (c : Category) :
    ((categoryStep user now M cl).get c).getD [] =
      if cl.getCategory user now = c then
        (if cl ∈ (M.get c).getD [] then (M.get c).getD []
         else (M.get c).getD [] ++ [cl])
      else (M.get c).getD [] := by
  simp only [categoryStep]
  set att := cl.getCategory user now with hatt
  set R := (if ! M.has att then M.put att [] else M) with hR
  set b := (R.get att).getD [] with hb
  obtain ⟨hb1, hb2⟩ := ensure_bucket M att
  rw [← hR] at hb1 hb2
  rw [← hb] at hb1
  cases hcont : b.contains cl with
  | true =>
    simp only [Bool.not_true, Bool.false_eq_true, if_false]
    have hmem : cl ∈ (M.get att).getD [] := by
      rw [← hb1]
      exact List.elem_iff.mp hcont
    by_cases hc : att = c
    · subst hc
      rw [if_pos rfl, if_pos hmem, ← hb, hb1]
    · rw [if_neg hc]
      exact congrArg (fun o => o.getD []) (hb2 c (fun e => hc e.symm))
  | false =>
    simp only [Bool.not_false, eq_self_iff_true, if_true]
    have hmem : cl ∉ (M.get att).getD [] := by
      rw [← hb1]
      intro hin
      have he : b.contains cl = true := List.elem_iff.mpr hin
      rw [hcont] at he
      exact Bool.false_ne_true he
    by_cases hc : att = c
    · subst hc
      rw [if_pos rfl, if_neg hmem]
      rw [Map.get_put, if_pos rfl, Option.getD_some, hb1]
    · rw [if_neg hc]
      rw [Map.get_put, if_neg (fun e => hc e.symm)]
      exact congrArg (fun o => o.getD []) (hb2 c (fun e => hc e.symm))


/-- The fold of categoryStep over a list, read at one category, is the
guarded first-seen accumulation over the matching changelists. -/
lemma categoryFold_get (user : Account) (now : Int) (c : Category)
    (l : List Changelist) :
    ∀ M : Map Category (List Changelist),
      ((l.foldl (categoryStep user now) M).get c).getD [] =
        l.foldl (fun acc cl =>
          if cl.getCategory user now = c then
            (if cl ∈ acc then acc else acc ++ [cl]) else acc)
          ((M.get c).getD []) := by
  induction l with
  | nil => intro M; rfl
  | cons cl rest ih =>
    intro M
    rw [List.foldl_cons, List.foldl_cons, ih, categoryStep_get]

/-- Folding over a filtered list equals a guarded fold over the full list. -/
lemma foldl_filter {α β : Type} (p : α → Bool) (g : β → α → β)
    (l : List α) :
    ∀ b : β, (l.filter p).foldl g b =
      l.foldl (fun acc a => if p a then g acc a else acc) b := by
  induction l with
  | nil => intro b; rfl
  | cons a t ih =>
    intro b
    by_cases hp : p a
    · simp [List.filter_cons, hp, ih]
    · simp [List.filter_cons, hp, ih]

/-- firstSeen produces lists without duplicates. -/
lemma firstSeen_nodup {α : Type} [DecidableEq α] (l : List α) :
    (firstSeen l).Nodup := by
  have h : ∀ acc : List α, acc.Nodup →
      (l.foldl (fun acc a => if a ∈ acc then acc else acc ++ [a]) acc).Nodup := by
    induction l with
    | nil => intro acc hacc; exact hacc
    | cons a t ih =>
      intro acc hacc
      rw [List.foldl_cons]
      by_cases hmem : a ∈ acc
      · rw [if_pos hmem]
        exact ih acc hacc
      · rw [if_neg hmem]
        refine ih _ ?_
        rw [List.nodup_append]
        refine ⟨hacc, List.nodup_singleton a, ?_⟩
        intro x hx hx2
        rw [List.mem_singleton] at hx2
        subst hx2
        exact hmem hx
  exact h [] List.nodup_nil

/-- C9 single-query bucket formula: the bucket of one category is the
first-seen deduplication of the changelists of that category, in data
order. -/
lemma getCategoryMap_get (sr : SearchResult) (now : Int) (c : Category) :
    ((sr.getCategoryMap now).get c).getD [] =
      firstSeen (sr.data.filter
        (fun cl => cl.getCategory sr.user now == c)) := by
  rw [SearchResult.getCategoryMap, categoryFold_get, firstSeen, foldl_filter]
  have hinit : (((⟨[]⟩ : Map Category (List Changelist)).get c).getD []) =
      ([] : List Changelist) := rfl
  rw [hinit]
  refine List.foldl_ext _ _ [] ?_
  intro acc cl _
  by_cases h : cl.getCategory sr.user now = c <;> simp [h]

/-- replaceEntry preserves the key sequence. -/
lemma keys_replaceEntry {α β : Type} [DecidableEq α] (l : List (α × β))
    (k : α) (v : β) :
    (replaceEntry l k v).map Prod.fst = l.map Prod.fst := by
  induction l with
  | nil => rfl
  | cons e t ih =>
    rw [replaceEntry]
    by_cases h : e.1 = k
    · rw [if_pos h, List.map_cons, List.map_cons, h]
    · rw [if_neg h, List.map_cons, List.map_cons, ih]

/-- Map.put preserves key uniqueness. -/
lemma keysNodup_put {α β : Type} [DecidableEq α] (m : Map α β) (k : α)
    (v : β) (h : (m.entries.map Prod.fst).Nodup) :
    ((m.put k v).entries.map Prod.fst).Nodup := by
  rw [Map.put]
  by_cases hhas : m.has k
  · rw [if_pos hhas]
    simpa [keys_replaceEntry] using h
  · rw [if_neg hhas]
    rw [List.map_append, List.nodup_append]
    refine ⟨h, by simp, ?_⟩
    intro x hx hx2
    have hx3 : x = k := by simpa using hx2
    subst hx3
    obtain ⟨p, hp, hfst⟩ := List.mem_map.mp hx
    have hn : m.entries.lookup x = none := by
      cases hl : m.entries.lookup x with
      | none => rfl
      | some v2 => rw [Map.has, hl] at hhas; simp at hhas
    rw [List.lookup_eq_none_iff] at hn
    have hne := hn p hp
    rw [bne_iff_ne] at hne
    exact hne hfst.symm

/-- One categoryStep preserves key uniqueness. -/
lemma categoryStep_keysNodup (user : Account) (now : Int)
    (M : Map Category (List Changelist)) (cl : Changelist)
    (h : (M.entries.map Prod.fst).Nodup) :
    ((categoryStep user now M cl).entries.map Prod.fst).Nodup := by
  simp only [categoryStep]
  split_ifs <;>
    first
      | exact h
      | exact keysNodup_put _ _ _ h
      | exact keysNodup_put _ _ _ (keysNodup_put _ _ _ h)

/-- getCategoryMap has unique keys: the categoryStep fold keeps key
uniqueness, starting from the empty map. -/
lemma getCategoryMap_keysNodup (sr : SearchResult) (now : Int) :
    ((sr.getCategoryMap now).entries.map Prod.fst).Nodup := by
  rw [SearchResult.getCategoryMap]
  suffices h : ∀ (l : List Changelist) (M : Map Category (List Changelist)),
      (M.entries.map Prod.fst).Nodup →
      ((l.foldl (categoryStep sr.user now) M).entries.map Prod.fst).Nodup by
    exact h sr.data ⟨[]⟩ (by simp)
  intro l
  induction l with
  | nil => intro M hM; exact hM
  | cons cl rest ih =>
    intro M hM
    rw [List.foldl_cons]
    exact ih _ (categoryStep_keysNodup sr.user now M cl hM)

/-- The bucket update of one mergeStep, read at any category: the incoming
bucket contents are concatenated onto the bucket of the entry key, every
other bucket is unchanged. -/
lemma mergeStep_get (A : Map Category (List Changelist))
    (entry : Category × List Changelist) (c : Category) :
    ((mergeStep A entry).get c).getD [] =
      if entry.1 = c then (A.get c).getD [] ++ entry.2
      else (A.get c).getD [] := by
  obtain ⟨hb1, hb2⟩ := ensure_bucket A entry.1
  simp only [mergeStep]
  by_cases hc : entry.1 = c
  · subst hc
    rw [if_pos rfl]
    rw [Map.get_put, if_pos rfl, Option.getD_some, hb1]
  · rw [if_neg hc]
    rw [Map.get_put, if_neg (fun e => hc e.symm)]
    exact congrArg (fun o => o.getD []) (hb2 c (fun e => hc e.symm))

/-- Folding the entries of a unique-keyed map with mergeStep concatenates
its bucket (when present) onto the accumulated bucket of each category. -/
lemma mergeFold_get (es : List (Category × List Changelist)) (c : Category) :
    ∀ A : Map Category (List Changelist), (es.map Prod.fst).Nodup →
      ((es.foldl mergeStep A).get c).getD [] =
        (A.get c).getD [] ++ (es.lookup c).getD [] := by
  induction es with
  | nil =>
    intro A _
    simp
  | cons e t ih =>
    obtain ⟨k, v⟩ := e
    intro A hnd
    rw [List.map_cons] at hnd
    have hnd2 : (t.map Prod.fst).Nodup := hnd.of_cons
    rw [List.foldl_cons, ih _ hnd2, mergeStep_get]
    by_cases hk : k = c
    · subst hk
      rw [if_pos rfl]
      have hknot : k ∉ t.map Prod.fst := (List.nodup_cons.mp hnd).1
      have htl : t.lookup k = none := by
        rw [List.lookup_eq_none_iff]
        intro p hp
        rw [bne_iff_ne]
        intro he
        exact hknot (he ▸ List.mem_map_of_mem Prod.fst hp)
      rw [htl, List.lookup_cons_self]
      simp [List.append_assoc]
    · rw [if_neg (show ¬ ((k, v).1 = c) from hk)]
      rw [List.lookup_cons,
        show (c == k) = false from beq_eq_false_iff_ne.mpr
          (fun e2 => hk e2.symm)]

/-- The outer fold of SearchResults.getCategoryMap concatenates the
per-query buckets in query order. -/
lemma resultsFold_get (now : Int) (c : Category) (rs : List SearchResult) :
    ∀ A : Map Category (List Changelist),
      (((rs.foldl (fun categories result =>
          (result.getCategoryMap now).entries.foldl mergeStep categories)
            A).get c).getD []) =
        (A.get c).getD [] ++
          (rs.map (fun r => ((r.getCategoryMap now).get c).getD [])).flatten := by
  induction rs with
  | nil =>
    intro A
    simp
  | cons r t ih =>
    intro A
    rw [List.foldl_cons, ih,
      mergeFold_get _ _ _ (getCategoryMap_keysNodup r now)]
    rw [List.map_cons, List.flatten_cons]
    simp [List.append_assoc, Map.get]

/-- C9: a single query groups its changelists by the category computed for
the bound user, with first-seen order and no duplicate changelist in a
bucket; multiple queries concatenate the per-query buckets in query order
without cross-query deduplication. -/
theorem C9_categoryMap_grouping (now : Int) :
    (∀ (sr : SearchResult) (c : Category),
      ((sr.getCategoryMap now).get c).getD [] =
        firstSeen (sr.data.filter
          (fun cl => cl.getCategory sr.user now == c)) ∧
      (((sr.getCategoryMap now).get c).getD []).Nodup) ∧
    (∀ (srs : SearchResults) (c : Category),
      ((srs.getCategoryMap now).get c).getD [] =
        (srs.results.map
          (fun r => ((r.getCategoryMap now).get c).getD [])).flatten) := by
  constructor
  · intro sr c
    refine ⟨getCategoryMap_get sr now c, ?_⟩
    rw [getCategoryMap_get sr now c]
    exact firstSeen_nodup _
  · intro srs c
    rw [SearchResults.getCategoryMap, resultsFold_get]
    rfl

end Gerrit
